import Mathlib

/-!
Verification of the crossword-grid filler `xword-fill.c` (with the
dictionary library `xdictlib.c`) against its natural-language
specification.

The C program is shallowly embedded: characters are bytes (`Nat`),
C strings are `List Nat`, a grid is the flat row-major byte list the
program uses, and every embedded function mirrors the corresponding C
function from `src/xword-fill.c` (line references are given on each
definition).  Definitions that come from the specification's wording
rather than from the source (used to compare code against claim) are
marked `Modelled from the spec:` in their doc comments.
-/

namespace Xword

/-- C `tolower` in the default locale: maps `A`..`Z` (65..90) to
`a`..`z` (97..122), leaves every other byte unchanged. -/
def tolower (c : Nat) : Nat := if 65 ≤ c ∧ c ≤ 90 then c + 32 else c

/-- C `isalpha` in the default locale: true exactly on `A`..`Z` and `a`..`z`. -/
def isalpha (c : Nat) : Prop := (65 ≤ c ∧ c ≤ 90) ∨ (97 ≤ c ∧ c ≤ 122)

instance (c : Nat) : Decidable (isalpha c) := by unfold isalpha; infer_instance

/-- C `strchr(s, c) != NULL` for a string literal `s`: true when `c` occurs
in `s` **or when `c` is the NUL byte 0** (`strchr` also finds the
terminating NUL). -/
def inCStr (s : List Nat) (c : Nat) : Prop := c = 0 ∨ c ∈ s

instance (s : List Nat) (c : Nat) : Decidable (inCStr s c) := by
  unfold inCStr; infer_instance

/-- The bytes of the C literal "aeiouy" (the program's vowel set). -/
def vowelStr : List Nat := [97, 101, 105, 111, 117, 121]

/-- The bytes of the C literal "bcdfghjklmnpqrstvwxyz" (the program's
consonant set).  Note it **contains `y`** (121): the code treats `y` as
both a vowel and a consonant for wildcard matching. -/
def consStr : List Nat :=
  [98, 99, 100, 102, 103, 104, 106, 107, 108, 109, 110,
   112, 113, 114, 115, 116, 118, 119, 120, 121, 122]

/-- Modelled from the spec: the consonant set as claim C3 / the spec
table define it — a letter in `b..z` that is **not** in the vowel set
`{a,e,i,o,u,y}`.  Unlike the program's `consStr`, this set excludes
`y` (121). -/
def claimConsStr : List Nat :=
  [98, 99, 100, 102, 103, 104, 106, 107, 108, 109, 110,
   112, 113, 114, 115, 116, 118, 119, 120, 122]

/-- The bytes of the C literal ".01" used by `grid_contains_duplicates`. -/
def dot01Str : List Nat := [46, 48, 49]

/-- Embedding of the C function `matches` (xword-fill.c lines 549-558),
renamed `matchesFn` because `matches` is a Lean keyword: single-cell
match of grid character `a` against word character `b`.  Returns 0 for
no match, 1 for a loose match, 2 for an exact match.  Byte values:
35 = `#`, 46 = `.`, 48 = `0`, 49 = `1`. -/
def matchesFn (a b : Nat) : Nat :=
  if a = 35 ∨ b = 35 then 0
  else if a = 46 ∨ b = 46 then 1
  else if inCStr vowelStr a ∧ b = 48 then 1
  else if inCStr vowelStr b ∧ a = 48 then 1
  else if inCStr consStr a ∧ b = 49 then 1
  else if inCStr consStr b ∧ a = 49 then 1
  else if tolower a = tolower b then 2 else 0

/-- Modelled from the spec: the single-cell match table of claim C3 /
spec section 4.B, taken literally.  A vowel is a member of
`{a,e,i,o,u,y}`; a consonant is a letter in `b..z` that is **not** a
vowel (`claimConsStr`, which excludes `y`); the exact case requires
both characters to be the **same letter** compared case-insensitively;
every case not listed is no-match. -/
def matches_spec (a b : Nat) : Nat :=
  if a = 35 ∨ b = 35 then 0
  else if a = 46 ∨ b = 46 then 1
  else if (a = 48 ∧ b ∈ vowelStr) ∨ (b = 48 ∧ a ∈ vowelStr) then 1
  else if (a = 49 ∧ b ∈ claimConsStr) ∨ (b = 49 ∧ a ∈ claimConsStr) then 1
  else if isalpha a ∧ isalpha b ∧ tolower a = tolower b then 2
  else 0

/-- Modelled from the spec: claim C3 amended in the **two** places the
counterexamples force.  First, the consonant case uses the program's
consonant string `"bcdfghjklmnpqrstvwxyz"` (`consStr`), which contains
`y`, so `y` matches both the vowel wildcard `0` and the consonant
wildcard `1` — the claim's consonant set `{b..z}` minus the vowels
excludes `y`.  Second, the exact-match case fires whenever
`tolower a = tolower b`, whether or not the two bytes are letters (so
identical non-letter bytes such as `('0','0')` or `('@','@')` also
count as exact). -/
def matches_spec_amended (a b : Nat) : Nat :=
  if a = 35 ∨ b = 35 then 0
  else if a = 46 ∨ b = 46 then 1
  else if (a = 48 ∧ b ∈ vowelStr) ∨ (b = 48 ∧ a ∈ vowelStr) then 1
  else if (a = 49 ∧ b ∈ consStr) ∨ (b = 49 ∧ a ∈ consStr) then 1
  else if tolower a = tolower b then 2
  else 0

/-- The result of `matchesFn` is always 0, 1 or 2. -/
lemma matches_cases (a b : Nat) :
    matchesFn a b = 0 ∨ matchesFn a b = 1 ∨ matchesFn a b = 2 := by
  unfold matchesFn; split_ifs <;> simp

/-- Claim C3, counterexample: the claim's table fails at two concrete
pairs.  On `('0','0')` (byte 48 twice) the code returns an **exact
match** (2) — its final case tests `tolower` equality on arbitrary
bytes — while the claim's table says no match (neither byte is `#`,
`.`, a vowel against `0`, a consonant against `1`, or a letter).  On
`('y','1')` (bytes 121, 49) the code returns a **loose match** (1) —
its consonant string `"bcdfghjklmnpqrstvwxyz"` contains `y` — while
the claim's consonant set `{b..z}` minus `{a,e,i,o,u,y}` excludes `y`,
so the claim's table says no match.  The claim as stated is false. -/
theorem c3_counterexample :
    (matchesFn 48 48 = 2 ∧ matches_spec 48 48 = 0) ∧
    (matchesFn 121 49 = 1 ∧ matches_spec 121 49 = 0) := by decide

/-- Claim C3, amended: for every pair of nonzero bytes, `matchesFn`
agrees with the claim's table once the two cases the counterexamples
refute are adjusted: the consonant wildcard case uses the program's
consonant set, which includes `y` (so `y` matches both `0` and `1`),
and the exact-match case is widened from "both are the same letter
case-insensitively" to "`tolower a = tolower b`" (which additionally
covers identical non-letter characters).  The nonzero restriction
reflects that C strings cannot pass a NUL byte to `matchesFn`; on NUL
the code's `strchr` tests would also hit the string terminator. -/
theorem c3_amended (a b : Nat) (ha : a ≠ 0) (hb : b ≠ 0) :
    matchesFn a b = matches_spec_amended a b := by
  have hva : inCStr vowelStr a ↔ a ∈ vowelStr := or_iff_right ha
  have hvb : inCStr vowelStr b ↔ b ∈ vowelStr := or_iff_right hb
  have hca : inCStr consStr a ↔ a ∈ consStr := or_iff_right ha
  have hcb : inCStr consStr b ↔ b ∈ consStr := or_iff_right hb
  unfold matchesFn matches_spec_amended
  simp only [hva, hvb, hca, hcb]
  by_cases h1 : a = 35 ∨ b = 35
  · simp only [if_pos h1]
  by_cases h2 : a = 46 ∨ b = 46
  · simp only [if_neg h1, if_pos h2]
  by_cases h3 : a ∈ vowelStr ∧ b = 48
  · have hs : (a = 48 ∧ b ∈ vowelStr) ∨ (b = 48 ∧ a ∈ vowelStr) := Or.inr ⟨h3.2, h3.1⟩
    simp only [if_neg h1, if_neg h2, if_pos h3, if_pos hs]
  by_cases h4 : b ∈ vowelStr ∧ a = 48
  · have hs : (a = 48 ∧ b ∈ vowelStr) ∨ (b = 48 ∧ a ∈ vowelStr) := Or.inl ⟨h4.2, h4.1⟩
    simp only [if_neg h1, if_neg h2, if_neg h3, if_pos h4, if_pos hs]
  have hsv : ¬((a = 48 ∧ b ∈ vowelStr) ∨ (b = 48 ∧ a ∈ vowelStr)) :=
    fun h => h.elim (fun hc => h4 ⟨hc.2, hc.1⟩) (fun hc => h3 ⟨hc.2, hc.1⟩)
  by_cases h5 : a ∈ consStr ∧ b = 49
  · have hs : (a = 49 ∧ b ∈ consStr) ∨ (b = 49 ∧ a ∈ consStr) := Or.inr ⟨h5.2, h5.1⟩
    simp only [if_neg h1, if_neg h2, if_neg h3, if_neg h4, if_pos h5, if_neg hsv, if_pos hs]
  by_cases h6 : b ∈ consStr ∧ a = 49
  · have hs : (a = 49 ∧ b ∈ consStr) ∨ (b = 49 ∧ a ∈ consStr) := Or.inl ⟨h6.2, h6.1⟩
    simp only [if_neg h1, if_neg h2, if_neg h3, if_neg h4, if_neg h5, if_pos h6,
      if_neg hsv, if_pos hs]
  have hsc : ¬((a = 49 ∧ b ∈ consStr) ∨ (b = 49 ∧ a ∈ consStr)) :=
    fun h => h.elim (fun hc => h6 ⟨hc.2, hc.1⟩) (fun hc => h5 ⟨hc.2, hc.1⟩)
  by_cases h7 : tolower a = tolower b
  · simp only [if_neg h1, if_neg h2, if_neg h3, if_neg h4, if_neg h5, if_neg h6,
      if_neg hsv, if_neg hsc, if_pos h7]
  · simp only [if_neg h1, if_neg h2, if_neg h3, if_neg h4, if_neg h5, if_neg h6,
      if_neg hsv, if_neg hsc, if_neg h7]

/-- Claim C3, witness for the amended theorem at the concrete pair
`('a','0')` (a loose vowel-wildcard match). -/
theorem c3_witness : matchesFn 97 48 = matches_spec_amended 97 48 :=
  c3_amended 97 48 (by decide) (by decide)

/-- Access `grid[idx]` for a row-major grid stored as a byte list.  The C
code only ever indexes in bounds; out-of-range access returns a default
in the model. -/
def gridGet (grid : List Nat) (idx : Nat) : Nat := grid.getD idx 0

/-- The cells `grid[j*w+(i+k)]` for `k < len`: the cells an Across
placement at `(i, j)` of a length-`len` word would occupy. -/
def runCellsAcross (grid : List Nat) (w i j len : Nat) : List Nat :=
  (List.range len).map (fun k => gridGet grid (j*w+(i+k)))

/-- The cells `grid[(j+k)*w+i]` for `k < len`: the cells a Down placement
at `(i, j)` of a length-`len` word would occupy. -/
def runCellsDown (grid : List Nat) (w i j len : Nat) : List Nat :=
  (List.range len).map (fun k => gridGet grid ((j+k)*w+i))

/-- The per-cell loop shared by `entry_fits_across` (xword-fill.c lines
520-529) and `entry_fits_down` (lines 536-545): walks the run cells and
the word letters in step, returns 0 on the first non-match, otherwise 2
when the `exact_match` flag survived every cell and 1 when some cell
matched only loosely. -/
def fit_cells : List Nat → List Nat → Bool → Nat
  | c :: cs, x :: xs, exact =>
      if matchesFn c x = 0 then 0
      else fit_cells cs xs (exact && !(matchesFn c x == 1))
  | _, _, exact => if exact then 2 else 1

/-- Embedding of `entry_fits_across` (xword-fill.c lines 517-531). -/
def entry_fits_across (grid : List Nat) (w h i j : Nat) (word : List Nat) : Nat :=
  if w < i + word.length then 0
  else if 0 < i ∧ gridGet grid (j*w+(i-1)) ≠ 35 then 0
  else if i + word.length < w ∧ gridGet grid (j*w+(i+word.length)) ≠ 35 then 0
  else fit_cells (runCellsAcross grid w i j word.length) word true

/-- Embedding of `entry_fits_down` (xword-fill.c lines 533-547). -/
def entry_fits_down (grid : List Nat) (w h i j : Nat) (word : List Nat) : Nat :=
  if h < j + word.length then 0
  else if 0 < j ∧ gridGet grid ((j-1)*w+i) ≠ 35 then 0
  else if j + word.length < h ∧ gridGet grid ((j+word.length)*w+i) ≠ 35 then 0
  else fit_cells (runCellsDown grid w i j word.length) word true

/-- Modelled from the spec: an admissible Across placement (claim C4 /
spec section 3): the run cells lie within the grid, the cell before and
the cell after the run are off-grid or black, and every word letter
matches its grid cell. -/
def admissible_across (grid : List Nat) (w h i j : Nat) (word : List Nat) : Prop :=
  j < h ∧ i + word.length ≤ w ∧
  (i = 0 ∨ gridGet grid (j*w+(i-1)) = 35) ∧
  (i + word.length = w ∨ gridGet grid (j*w+(i+word.length)) = 35) ∧
  ∀ p ∈ (runCellsAcross grid w i j word.length).zip word, matchesFn p.1 p.2 ≠ 0

/-- Modelled from the spec: an admissible Down placement (claim C4). -/
def admissible_down (grid : List Nat) (w h i j : Nat) (word : List Nat) : Prop :=
  i < w ∧ j + word.length ≤ h ∧
  (j = 0 ∨ gridGet grid ((j-1)*w+i) = 35) ∧
  (j + word.length = h ∨ gridGet grid ((j+word.length)*w+i) = 35) ∧
  ∀ p ∈ (runCellsDown grid w i j word.length).zip word, matchesFn p.1 p.2 ≠ 0

/-- Every per-cell match of an Across run is exact. -/
def all_exact_across (grid : List Nat) (w i j : Nat) (word : List Nat) : Prop :=
  ∀ p ∈ (runCellsAcross grid w i j word.length).zip word, matchesFn p.1 p.2 = 2

/-- Every per-cell match of a Down run is exact. -/
def all_exact_down (grid : List Nat) (w i j : Nat) (word : List Nat) : Prop :=
  ∀ p ∈ (runCellsDown grid w i j word.length).zip word, matchesFn p.1 p.2 = 2

/-- The per-cell loop rejects exactly when some cell fails to match. -/
lemma fit_cells_ne_zero (cs : List Nat) : ∀ (xs : List Nat) (e : Bool),
    fit_cells cs xs e ≠ 0 ↔ ∀ p ∈ cs.zip xs, matchesFn p.1 p.2 ≠ 0 := by
  induction cs with
  | nil => intro xs e; cases e <;> simp [fit_cells]
  | cons c cs ih =>
    intro xs e
    cases xs with
    | nil => cases e <;> simp [fit_cells]
    | cons x xs =>
      rw [show fit_cells (c :: cs) (x :: xs) e =
        (if matchesFn c x = 0 then 0
         else fit_cells cs xs (e && !(matchesFn c x == 1))) from rfl]
      by_cases h0 : matchesFn c x = 0
      · rw [if_pos h0]
        simp only [ne_eq, not_true_eq_false, false_iff]
        exact fun hall => (hall (c, x) (List.mem_cons_self _ _)) h0
      · rw [if_neg h0, ih xs (e && !(matchesFn c x == 1))]
        constructor
        · intro htail p hp
          rcases List.mem_cons.mp hp with hpe | hp2
          · rw [hpe]; exact h0
          · exact htail p hp2
        · exact fun hall p hp => hall p (List.mem_cons_of_mem _ hp)

/-- The per-cell loop reports an exact fit exactly when the flag came in
true and every cell matches exactly. -/
lemma fit_cells_eq_two (cs : List Nat) : ∀ (xs : List Nat) (e : Bool),
    fit_cells cs xs e = 2 ↔ (e = true ∧ ∀ p ∈ cs.zip xs, matchesFn p.1 p.2 = 2) := by
  induction cs with
  | nil => intro xs e; cases e <;> simp [fit_cells]
  | cons c cs ih =>
    intro xs e
    cases xs with
    | nil => cases e <;> simp [fit_cells]
    | cons x xs =>
      have hc := matches_cases c x
      rw [show fit_cells (c :: cs) (x :: xs) e =
        (if matchesFn c x = 0 then 0
         else fit_cells cs xs (e && !(matchesFn c x == 1))) from rfl]
      by_cases h0 : matchesFn c x = 0
      · rw [if_pos h0]
        constructor
        · intro hh; exact absurd hh (by decide)
        · rintro ⟨-, hall⟩
          exact absurd (hall (c, x) (List.mem_cons_self _ _)) (by rw [h0]; decide)
      · rw [if_neg h0, ih xs (e && !(matchesFn c x == 1))]
        constructor
        · rintro ⟨he, htail⟩
          rw [Bool.and_eq_true, Bool.not_eq_true', beq_eq_false_iff_ne] at he
          refine ⟨he.1, fun p hp => ?_⟩
          rcases List.mem_cons.mp hp with hpe | hp2
          · rw [hpe]
            rcases hc with h | h | h
            · exact absurd h h0
            · exact absurd h he.2
            · exact h
          · exact htail p hp2
        · rintro ⟨he, hall⟩
          have h2 : matchesFn c x = 2 := hall (c, x) (List.mem_cons_self _ _)
          refine ⟨?_, fun p hp => hall p (List.mem_cons_of_mem _ hp)⟩
          rw [Bool.and_eq_true, Bool.not_eq_true', beq_eq_false_iff_ne]
          exact ⟨he, by omega⟩

/-- Across fit accepts exactly on admissible placements (rows in bounds). -/
lemma entry_fits_across_ne_zero (grid : List Nat) (w h i j : Nat) (word : List Nat)
    (hj : j < h) :
    entry_fits_across grid w h i j word ≠ 0 ↔ admissible_across grid w h i j word := by
  unfold entry_fits_across admissible_across
  by_cases hb1 : w < i + word.length
  · rw [if_pos hb1]
    simp only [ne_eq, not_true_eq_false, false_iff]
    rintro ⟨-, hle, -⟩; omega
  · rw [if_neg hb1]
    by_cases hb2 : 0 < i ∧ gridGet grid (j*w+(i-1)) ≠ 35
    · rw [if_pos hb2]
      simp only [ne_eq, not_true_eq_false, false_iff]
      rintro ⟨-, -, hbound, -⟩
      rcases hbound with h0 | h35
      · omega
      · exact hb2.2 h35
    · rw [if_neg hb2]
      by_cases hb3 : i + word.length < w ∧ gridGet grid (j*w+(i+word.length)) ≠ 35
      · rw [if_pos hb3]
        simp only [ne_eq, not_true_eq_false, false_iff]
        rintro ⟨-, -, -, hbound, -⟩
        rcases hbound with h0 | h35
        · omega
        · exact hb3.2 h35
      · rw [if_neg hb3, fit_cells_ne_zero]
        push_neg at hb2 hb3
        constructor
        · intro hall
          refine ⟨hj, by omega, ?_, ?_, hall⟩
          · by_cases hi : i = 0
            · exact Or.inl hi
            · exact Or.inr (hb2 (by omega))
          · by_cases hi : i + word.length = w
            · exact Or.inl hi
            · exact Or.inr (hb3 (by omega))
        · rintro ⟨-, -, -, -, hall⟩; exact hall

/-- Across fit is exact (2 rather than 1) exactly when the placement is
admissible and every per-cell match is exact. -/
lemma entry_fits_across_eq_two (grid : List Nat) (w h i j : Nat) (word : List Nat)
    (hj : j < h) :
    entry_fits_across grid w h i j word = 2 ↔
      admissible_across grid w h i j word ∧ all_exact_across grid w i j word := by
  unfold entry_fits_across admissible_across all_exact_across
  by_cases hb1 : w < i + word.length
  · rw [if_pos hb1]
    constructor
    · intro hh; exact absurd hh (by decide)
    · rintro ⟨⟨-, hle, -⟩, -⟩; omega
  · rw [if_neg hb1]
    by_cases hb2 : 0 < i ∧ gridGet grid (j*w+(i-1)) ≠ 35
    · rw [if_pos hb2]
      constructor
      · intro hh; exact absurd hh (by decide)
      · rintro ⟨⟨-, -, hbound, -⟩, -⟩
        rcases hbound with h0 | h35
        · omega
        · exact (hb2.2 h35).elim
    · rw [if_neg hb2]
      by_cases hb3 : i + word.length < w ∧ gridGet grid (j*w+(i+word.length)) ≠ 35
      · rw [if_pos hb3]
        constructor
        · intro hh; exact absurd hh (by decide)
        · rintro ⟨⟨-, -, -, hbound, -⟩, -⟩
          rcases hbound with h0 | h35
          · omega
          · exact (hb3.2 h35).elim
      · rw [if_neg hb3, fit_cells_eq_two]
        push_neg at hb2 hb3
        constructor
        · rintro ⟨-, hall⟩
          refine ⟨⟨hj, by omega, ?_, ?_, fun p hp => by rw [hall p hp]; decide⟩, hall⟩
          · by_cases hi : i = 0
            · exact Or.inl hi
            · exact Or.inr (hb2 (by omega))
          · by_cases hi : i + word.length = w
            · exact Or.inl hi
            · exact Or.inr (hb3 (by omega))
        · rintro ⟨-, hall⟩; exact ⟨rfl, hall⟩

/-- Down fit accepts exactly on admissible placements (columns in bounds). -/
lemma entry_fits_down_ne_zero (grid : List Nat) (w h i j : Nat) (word : List Nat)
    (hi : i < w) :
    entry_fits_down grid w h i j word ≠ 0 ↔ admissible_down grid w h i j word := by
  unfold entry_fits_down admissible_down
  by_cases hb1 : h < j + word.length
  · rw [if_pos hb1]
    simp only [ne_eq, not_true_eq_false, false_iff]
    rintro ⟨-, hle, -⟩; omega
  · rw [if_neg hb1]
    by_cases hb2 : 0 < j ∧ gridGet grid ((j-1)*w+i) ≠ 35
    · rw [if_pos hb2]
      simp only [ne_eq, not_true_eq_false, false_iff]
      rintro ⟨-, -, hbound, -⟩
      rcases hbound with h0 | h35
      · omega
      · exact hb2.2 h35
    · rw [if_neg hb2]
      by_cases hb3 : j + word.length < h ∧ gridGet grid ((j+word.length)*w+i) ≠ 35
      · rw [if_pos hb3]
        simp only [ne_eq, not_true_eq_false, false_iff]
        rintro ⟨-, -, -, hbound, -⟩
        rcases hbound with h0 | h35
        · omega
        · exact hb3.2 h35
      · rw [if_neg hb3, fit_cells_ne_zero]
        push_neg at hb2 hb3
        constructor
        · intro hall
          refine ⟨hi, by omega, ?_, ?_, hall⟩
          · by_cases hj : j = 0
            · exact Or.inl hj
            · exact Or.inr (hb2 (by omega))
          · by_cases hj : j + word.length = h
            · exact Or.inl hj
            · exact Or.inr (hb3 (by omega))
        · rintro ⟨-, -, -, -, hall⟩; exact hall

/-- Down fit is exact exactly when the placement is admissible with every
per-cell match exact. -/
lemma entry_fits_down_eq_two (grid : List Nat) (w h i j : Nat) (word : List Nat)
    (hi : i < w) :
    entry_fits_down grid w h i j word = 2 ↔
      admissible_down grid w h i j word ∧ all_exact_down grid w i j word := by
  unfold entry_fits_down admissible_down all_exact_down
  by_cases hb1 : h < j + word.length
  · rw [if_pos hb1]
    constructor
    · intro hh; exact absurd hh (by decide)
    · rintro ⟨⟨-, hle, -⟩, -⟩; omega
  · rw [if_neg hb1]
    by_cases hb2 : 0 < j ∧ gridGet grid ((j-1)*w+i) ≠ 35
    · rw [if_pos hb2]
      constructor
      · intro hh; exact absurd hh (by decide)
      · rintro ⟨⟨-, -, hbound, -⟩, -⟩
        rcases hbound with h0 | h35
        · omega
        · exact (hb2.2 h35).elim
    · rw [if_neg hb2]
      by_cases hb3 : j + word.length < h ∧ gridGet grid ((j+word.length)*w+i) ≠ 35
      · rw [if_pos hb3]
        constructor
        · intro hh; exact absurd hh (by decide)
        · rintro ⟨⟨-, -, -, hbound, -⟩, -⟩
          rcases hbound with h0 | h35
          · omega
          · exact (hb3.2 h35).elim
      · rw [if_neg hb3, fit_cells_eq_two]
        push_neg at hb2 hb3
        constructor
        · rintro ⟨-, hall⟩
          refine ⟨⟨hi, by omega, ?_, ?_, fun p hp => by rw [hall p hp]; decide⟩, hall⟩
          · by_cases hj : j = 0
            · exact Or.inl hj
            · exact Or.inr (hb2 (by omega))
          · by_cases hj : j + word.length = h
            · exact Or.inl hj
            · exact Or.inr (hb3 (by omega))
        · rintro ⟨-, hall⟩; exact ⟨rfl, hall⟩

/-- Claim C4: for a position whose fixed coordinate is in range, the
run-fit test accepts exactly the admissible placements (run inside the
grid, both neighbouring cells off-grid or black, every letter matching),
and reports 2 rather than 1 exactly when every per-cell match is exact. -/
theorem c4_entry_fits (grid : List Nat) (w h i j : Nat) (word : List Nat) :
    (j < h →
      ((entry_fits_across grid w h i j word ≠ 0 ↔
          admissible_across grid w h i j word) ∧
       (entry_fits_across grid w h i j word = 2 ↔
          admissible_across grid w h i j word ∧ all_exact_across grid w i j word))) ∧
    (i < w →
      ((entry_fits_down grid w h i j word ≠ 0 ↔
          admissible_down grid w h i j word) ∧
       (entry_fits_down grid w h i j word = 2 ↔
          admissible_down grid w h i j word ∧ all_exact_down grid w i j word))) := by
  constructor
  · intro hj
    exact ⟨entry_fits_across_ne_zero grid w h i j word hj,
           entry_fits_across_eq_two grid w h i j word hj⟩
  · intro hi
    exact ⟨entry_fits_down_ne_zero grid w h i j word hi,
           entry_fits_down_eq_two grid w h i j word hi⟩

/-- Claim C4, witness: the grid `b0g` (one row) with the word `bag` at
position (0,0) Across is an admissible, non-exact fit. -/
theorem c4_witness :
    admissible_across [98, 48, 103] 3 1 0 0 [98, 97, 103] :=
  (((c4_entry_fits [98, 48, 103] 3 1 0 0 [98, 97, 103]).1 (by decide)).1).mp (by decide)

/-- Embedding of `is_fixed_value` (xword-fill.c lines 560-566): a cell is
fixed when it is black (`#`) or holds a letter; `.`, `0`, `1` are open. -/
def is_fixed_value (c : Nat) : Prop := c = 35 ∨ isalpha c

instance (c : Nat) : Decidable (is_fixed_value c) := by
  unfold is_fixed_value; infer_instance

/-- Embedding of the C preprocessor define `ch2idx` (xword-fill.c
line 24): letter index
0..25 of a character; every non-letter maps to the index of `x` (23). -/
def ch2idx (c : Nat) : Nat := if isalpha c then tolower c - 97 else 23

/-- Embedding of `CELL_TO_SLICE` (xword-fill.c lines 282-300): in naive
mode the slice of a cell is the cell index itself; in compressed mode it
is the number of non-fixed cells strictly before it. -/
def CELL_TO_SLICE (grid : List Nat) (naive : Bool) (cell : Nat) : Nat :=
  if naive then cell
  else (List.range cell).countP (fun c => decide (¬ is_fixed_value (gridGet grid c)))

/-- Embedding of `NUMBER_OF_SLICES` (xword-fill.c lines 246-259): the
total number of slices, `w*h` in naive mode, else the number of
non-fixed cells. -/
def NUMBER_OF_SLICES (grid : List Nat) (w h : Nat) (naive : Bool) : Nat :=
  if naive then w * h
  else (List.range (w * h)).countP (fun c => decide (¬ is_fixed_value (gridGet grid c)))

/-- The 27 constraint columns one run cell contributes to an Across row
(xword-fill.c lines 586-590): for `m` in 0..25 column
`54*s + 2*m + (ri = m ? 0 : 1)`, then the orientation column `54*s + 52`. -/
def acrossBlock (s ri : Nat) : List Nat :=
  ((List.range 26).map (fun m => 27*2*s + 2*m + (if ri ≠ m then 1 else 0))) ++
    [27*2*s + 2*26 + 0]

/-- The 27 constraint columns one run cell contributes to a Down row
(xword-fill.c lines 615-619): for `m` in 0..25 column
`54*s + 2*m + (ri = m ? 1 : 0)`, then the orientation column `54*s + 53`. -/
def downBlock (s ri : Nat) : List Nat :=
  ((List.range 26).map (fun m => 27*2*s + 2*m + (if ri = m then 1 else 0))) ++
    [27*2*s + 2*26 + 1]

/-- Embedding of `add_row_across` (xword-fill.c lines 569-596): the list
of constraint columns of the row for placing `word` Across at `(i, j)`.
In compressed mode fixed cells are skipped entirely. -/
def add_row_across (grid : List Nat) (w : Nat) (naive : Bool) (i j : Nat)
    (word : List Nat) : List Nat :=
  (List.range word.length).flatMap (fun k =>
    if naive = true ∨ ¬ is_fixed_value (gridGet grid (j*w+(i+k))) then
      acrossBlock (CELL_TO_SLICE grid naive (j*w+(i+k))) (ch2idx (word.getD k 0))
    else [])

/-- Embedding of `add_row_down` (xword-fill.c lines 598-625). -/
def add_row_down (grid : List Nat) (w : Nat) (naive : Bool) (i j : Nat)
    (word : List Nat) : List Nat :=
  (List.range word.length).flatMap (fun k =>
    if naive = true ∨ ¬ is_fixed_value (gridGet grid ((j+k)*w+i)) then
      downBlock (CELL_TO_SLICE grid naive ((j+k)*w+i)) (ch2idx (word.getD k 0))
    else [])

/-- The letter index is always below 26. -/
lemma ch2idx_lt_26 (c : Nat) : ch2idx c < 26 := by
  unfold ch2idx
  split_ifs with h
  · unfold isalpha at h
    unfold tolower
    split_ifs with h2 <;> omega
  · omega

/-- Membership in an Across block: the right half `2m+1` of every
letter pair `m` other than `ri`, the left half `2*ri`, and the
orientation column 52, all offset by `54*s`. -/
lemma mem_acrossBlock (s ri c : Nat) :
    c ∈ acrossBlock s ri ↔
      ((∃ m, m < 26 ∧ m ≠ ri ∧ c = 54*s + 2*m + 1) ∨
       (ri < 26 ∧ c = 54*s + 2*ri) ∨ c = 54*s + 52) := by
  unfold acrossBlock
  simp only [List.mem_append, List.mem_map, List.mem_range, List.mem_singleton]
  constructor
  · rintro (⟨m, hm, hc⟩ | hc)
    · by_cases hmr : ri = m
      · subst hmr
        rw [if_neg (fun hh => hh rfl)] at hc
        exact Or.inr (Or.inl ⟨hm, by omega⟩)
      · rw [if_pos hmr] at hc
        exact Or.inl ⟨m, hm, fun hh => hmr hh.symm, by omega⟩
    · exact Or.inr (Or.inr (by omega))
  · rintro (⟨m, hm, hmr, rfl⟩ | ⟨hri, rfl⟩ | rfl)
    · exact Or.inl ⟨m, hm, by rw [if_pos (fun hh => hmr hh.symm)]; all_goals omega⟩
    · exact Or.inl ⟨ri, hri, by rw [if_neg (fun hh => hh rfl)]; all_goals omega⟩
    · exact Or.inr (by omega)

/-- Membership in a Down block: the left half `2m` of every letter pair
`m` other than `ri`, the right half `2*ri+1`, and the orientation
column 53, all offset by `54*s`. -/
lemma mem_downBlock (s ri c : Nat) :
    c ∈ downBlock s ri ↔
      ((∃ m, m < 26 ∧ m ≠ ri ∧ c = 54*s + 2*m) ∨
       (ri < 26 ∧ c = 54*s + 2*ri + 1) ∨ c = 54*s + 53) := by
  unfold downBlock
  simp only [List.mem_append, List.mem_map, List.mem_range, List.mem_singleton]
  constructor
  · rintro (⟨m, hm, hc⟩ | hc)
    · by_cases hmr : ri = m
      · subst hmr
        rw [if_pos rfl] at hc
        exact Or.inr (Or.inl ⟨hm, by omega⟩)
      · rw [if_neg hmr] at hc
        exact Or.inl ⟨m, hm, fun hh => hmr hh.symm, by omega⟩
    · exact Or.inr (Or.inr (by omega))
  · rintro (⟨m, hm, hmr, rfl⟩ | ⟨hri, rfl⟩ | rfl)
    · exact Or.inl ⟨m, hm, by rw [if_neg (fun hh => hmr hh.symm)]; all_goals omega⟩
    · exact Or.inl ⟨ri, hri, by rw [if_pos rfl]; all_goals omega⟩
    · exact Or.inr (by omega)

/-- Claim C2: an emitted row contains, for each run cell that is open
(every run cell in naive mode) with slice `s` and word-letter index
`i_k`, exactly the columns the claim lists: for Across the columns
`54*s + 2m + 1` for `m` different from `i_k`, the column `54*s + 2*i_k`,
and the orientation column `54*s + 52`; for Down the mirror image with
orientation column `54*s + 53`.  In compressed mode fixed run cells
contribute no columns. -/
theorem c2_row_columns (grid : List Nat) (w : Nat) (naive : Bool) (i j : Nat)
    (word : List Nat) (c : Nat) :
    (c ∈ add_row_across grid w naive i j word ↔
      ∃ k, k < word.length ∧
        (naive = true ∨ ¬ is_fixed_value (gridGet grid (j*w+(i+k)))) ∧
        ((∃ m, m < 26 ∧ m ≠ ch2idx (word.getD k 0) ∧
            c = 54 * CELL_TO_SLICE grid naive (j*w+(i+k)) + 2*m + 1) ∨
         c = 54 * CELL_TO_SLICE grid naive (j*w+(i+k)) + 2 * ch2idx (word.getD k 0) ∨
         c = 54 * CELL_TO_SLICE grid naive (j*w+(i+k)) + 52)) ∧
    (c ∈ add_row_down grid w naive i j word ↔
      ∃ k, k < word.length ∧
        (naive = true ∨ ¬ is_fixed_value (gridGet grid ((j+k)*w+i))) ∧
        ((∃ m, m < 26 ∧ m ≠ ch2idx (word.getD k 0) ∧
            c = 54 * CELL_TO_SLICE grid naive ((j+k)*w+i) + 2*m) ∨
         c = 54 * CELL_TO_SLICE grid naive ((j+k)*w+i) + 2 * ch2idx (word.getD k 0) + 1 ∨
         c = 54 * CELL_TO_SLICE grid naive ((j+k)*w+i) + 53)) := by
  constructor
  · unfold add_row_across
    simp only [List.mem_flatMap, List.mem_range]
    constructor
    · rintro ⟨k, hk, hmem⟩
      by_cases hopen : naive = true ∨ ¬ is_fixed_value (gridGet grid (j*w+(i+k)))
      · rw [if_pos hopen] at hmem
        rcases (mem_acrossBlock _ _ _).mp hmem with hcs | hcs | hcs
        · exact ⟨k, hk, hopen, Or.inl hcs⟩
        · exact ⟨k, hk, hopen, Or.inr (Or.inl hcs.2)⟩
        · exact ⟨k, hk, hopen, Or.inr (Or.inr hcs)⟩
      · rw [if_neg hopen] at hmem
        exact absurd hmem (List.not_mem_nil c)
    · rintro ⟨k, hk, hopen, hcs⟩
      refine ⟨k, hk, ?_⟩
      rw [if_pos hopen, mem_acrossBlock]
      rcases hcs with hcs | hcs | hcs
      · exact Or.inl hcs
      · exact Or.inr (Or.inl ⟨ch2idx_lt_26 _, hcs⟩)
      · exact Or.inr (Or.inr hcs)
  · unfold add_row_down
    simp only [List.mem_flatMap, List.mem_range]
    constructor
    · rintro ⟨k, hk, hmem⟩
      by_cases hopen : naive = true ∨ ¬ is_fixed_value (gridGet grid ((j+k)*w+i))
      · rw [if_pos hopen] at hmem
        rcases (mem_downBlock _ _ _).mp hmem with hcs | hcs | hcs
        · exact ⟨k, hk, hopen, Or.inl hcs⟩
        · exact ⟨k, hk, hopen, Or.inr (Or.inl hcs.2)⟩
        · exact ⟨k, hk, hopen, Or.inr (Or.inr hcs)⟩
      · rw [if_neg hopen] at hmem
        exact absurd hmem (List.not_mem_nil c)
    · rintro ⟨k, hk, hopen, hcs⟩
      refine ⟨k, hk, ?_⟩
      rw [if_pos hopen, mem_downBlock]
      rcases hcs with hcs | hcs | hcs
      · exact Or.inl hcs
      · exact Or.inr (Or.inl ⟨ch2idx_lt_26 _, hcs⟩)
      · exact Or.inr (Or.inr hcs)

/-- The scan loop of `grid_contains_duplicates` (xword-fill.c lines
913-931 and 935-953) applied to one line: maximal segments of non-`#`
cells, in order.  `acc` holds the current segment reversed. -/
def runsAux : List Nat → List Nat → List (List Nat)
  | [], acc => if acc.isEmpty then [] else [acc.reverse]
  | c :: cs, acc =>
      if c = 35 then
        (if acc.isEmpty then runsAux cs [] else acc.reverse :: runsAux cs [])
      else runsAux cs (c :: acc)

/-- All maximal non-black segments of one line. -/
def lineRuns (l : List Nat) : List (List Nat) := runsAux l []

/-- The entries one line contributes in `grid_contains_duplicates`:
its maximal non-black segments, dropping any segment containing `.`,
`0` or `1` (the C code tests `strchr(".01", ch)`), lowercased. -/
def entriesOfLine (l : List Nat) : List (List Nat) :=
  ((lineRuns l).filter
      (fun r => !(r.any (fun c => decide (inCStr dot01Str c))))).map
    (fun r => r.map tolower)

/-- Row `j` of a `w`-wide grid. -/
def rowOf (grid : List Nat) (w j : Nat) : List Nat :=
  (List.range w).map (fun i => gridGet grid (j*w+i))

/-- Column `i` of a `w`-by-`h` grid. -/
def colOf (grid : List Nat) (w h i : Nat) : List Nat :=
  (List.range h).map (fun j => gridGet grid (j*w+i))

/-- The full entry list `grid_contains_duplicates` builds (lines
912-954): all Across entries row by row, then all Down entries column
by column. -/
def grid_entries (grid : List Nat) (w h : Nat) : List (List Nat) :=
  (List.range h).flatMap (fun j => entriesOfLine (rowOf grid w j)) ++
  (List.range w).flatMap (fun i => entriesOfLine (colOf grid w h i))

/-- C `strcmp`-style ordering on byte strings, as used by the qsort
comparator `ptr_str_cmp` (xword-fill.c lines 831-837): `bytesLe a b`
means `strcmp(a,b) <= 0`. -/
def bytesLe : List Nat → List Nat → Bool
  | [], _ => true
  | _ :: _, [] => false
  | a :: as, b :: bs => if a < b then true else if b < a then false else bytesLe as bs

/-- The ordering as a relation, for `List.insertionSort`. -/
def bytesLeR (a b : List Nat) : Prop := bytesLe a b = true

instance : DecidableRel bytesLeR := fun a b => by unfold bytesLeR; infer_instance

/-- The strcmp ordering is total. -/
lemma bytesLe_total : ∀ a b : List Nat, bytesLeR a b ∨ bytesLeR b a
  | [], _ => Or.inl rfl
  | _ :: _, [] => Or.inr rfl
  | a :: as, b :: bs => by
      unfold bytesLeR bytesLe
      by_cases hab : a < b
      · simp only [if_pos hab]
        exact Or.inl trivial
      · by_cases hba : b < a
        · simp only [if_neg hab, if_pos hba]
          exact Or.inr trivial
        · simp only [if_neg hab, if_neg hba]
          exact bytesLe_total as bs

/-- The strcmp ordering is transitive. -/
lemma bytesLe_trans : ∀ a b c : List Nat,
    bytesLeR a b → bytesLeR b c → bytesLeR a c
  | [], _, _, _, _ => rfl
  | a :: as, [], _, h1, _ => by exact absurd h1 (by unfold bytesLeR bytesLe; decide)
  | a :: as, b :: bs, [], _, h2 => by
      exact absurd h2 (by unfold bytesLeR bytesLe; decide)
  | a :: as, b :: bs, c :: cs, h1, h2 => by
      unfold bytesLeR bytesLe at h1 h2 ⊢
      by_cases hab : a < b
      · by_cases hbc : b < c
        · rw [if_pos (by omega : a < c)]
        · by_cases hcb : c < b
          · rw [if_neg hbc, if_pos hcb] at h2
            exact absurd h2 (by decide)
          · rw [if_pos (by omega : a < c)]
      · by_cases hba : b < a
        · rw [if_neg hab, if_pos hba] at h1
          exact absurd h1 (by decide)
        · have hab2 : a = b := by omega
          subst hab2
          rw [if_neg hab, if_neg hba] at h1
          by_cases hac : a < c
          · rw [if_pos hac]
          · by_cases hca : c < a
            · rw [if_neg hac, if_pos hca] at h2
              exact absurd h2 (by decide)
            · rw [if_neg hac, if_neg hca] at h2 ⊢
              exact bytesLe_trans as bs cs h1 h2

/-- The strcmp ordering is antisymmetric. -/
lemma bytesLe_antisymm : ∀ a b : List Nat,
    bytesLeR a b → bytesLeR b a → a = b
  | [], [], _, _ => rfl
  | [], b :: bs, _, h2 => by exact absurd h2 (by unfold bytesLeR bytesLe; decide)
  | a :: as, [], h1, _ => by exact absurd h1 (by unfold bytesLeR bytesLe; decide)
  | a :: as, b :: bs, h1, h2 => by
      unfold bytesLeR bytesLe at h1 h2
      by_cases hab : a < b
      · rw [if_neg (by omega : ¬ b < a), if_pos hab] at h2
        exact absurd h2 (by decide)
      · by_cases hba : b < a
        · rw [if_neg hab, if_pos hba] at h1
          exact absurd h1 (by decide)
        · have hab2 : a = b := by omega
          subst hab2
          rw [if_neg hab, if_neg hba] at h1 h2
          rw [bytesLe_antisymm as bs h1 h2]

instance : IsTotal (List Nat) bytesLeR := ⟨bytesLe_total⟩

instance : IsTrans (List Nat) bytesLeR := ⟨bytesLe_trans⟩

/-- The adjacent-duplicate scan over the sorted entry array
(xword-fill.c lines 957-963). -/
def hasAdjDup : List (List Nat) → Bool
  | a :: b :: rest => if a = b then true else hasAdjDup (b :: rest)
  | _ => false

/-- Embedding of `grid_contains_duplicates` (xword-fill.c lines
903-968): collect every maximal Across and Down run (any length),
drop the ones containing `.`, `0`, `1`, sort lexicographically (the
code uses `qsort` with a `strcmp` comparator; the model uses insertion
sort, which produces the same sorted list), and report 1 when two
adjacent sorted entries coincide, else 0.  The out-of-memory result -3
has no counterpart in the model, which does not model allocation. -/
def grid_contains_duplicates (grid : List Nat) (w h : Nat) : Nat :=
  if hasAdjDup (List.insertionSort bytesLeR (grid_entries grid w h)) = true then 1 else 0

/-- In a sorted list, an adjacent duplicate exists exactly when the list
has any duplicate at all. -/
lemma hasAdjDup_iff : ∀ l : List (List Nat), l.Sorted bytesLeR →
    (hasAdjDup l = true ↔ ¬ l.Nodup)
  | [] => by intro _; simp [hasAdjDup]
  | [a] => by intro _; simp [hasAdjDup]
  | a :: b :: t => by
      intro hs
      rw [show hasAdjDup (a :: b :: t) = (if a = b then true else hasAdjDup (b :: t))
        from rfl]
      by_cases hab : a = b
      · subst hab
        rw [if_pos rfl]
        simp [List.nodup_cons]
      · rw [if_neg hab, hasAdjDup_iff (b :: t) hs.of_cons]
        have hanotin : a ∉ b :: t := by
          intro hmem
          rcases List.mem_cons.mp hmem with h1 | h1
          · exact hab h1
          · have hab2 : bytesLeR a b :=
              (List.sorted_cons.mp hs).1 b (List.mem_cons_self _ _)
            exact hab (bytesLe_antisymm a b hab2
              ((List.sorted_cons.mp (List.sorted_cons.mp hs).2).1 a h1))
        constructor
        · intro hnd hnd2
          exact hnd hnd2.of_cons
        · intro hnd hnd2
          exact hnd (List.nodup_cons.mpr ⟨hanotin, hnd2⟩)

/-- Claim C5, counterexample: the 2-by-1 grid `aa` has no run of length
at least 3 at all (so no two identical such runs), yet
`grid_contains_duplicates` returns 1: the two length-1 Down runs `a`
and `a` collide, because the code compares **all** maximal runs with no
minimum-length filter.  The claim as stated is false. -/
theorem c5_counterexample :
    grid_contains_duplicates [97, 97] 2 1 = 1 ∧
    (grid_entries [97, 97] 2 1).filter (fun r => decide (3 ≤ r.length)) = [] := by
  decide

/-- Claim C5, amended: `grid_contains_duplicates` returns 1 exactly when
the multiset of all maximal runs (of **any** length, horizontal and
vertical both collected, runs containing `.`, `0`, `1` excluded) has a
repeated element, and 0 otherwise; -3 would arise only on allocation
failure, which the model does not represent. -/
theorem c5_amended (grid : List Nat) (w h : Nat) :
    (grid_contains_duplicates grid w h = 1 ↔ ¬ (grid_entries grid w h).Nodup) ∧
    (grid_contains_duplicates grid w h = 0 ↔ (grid_entries grid w h).Nodup) := by
  have hperm := List.perm_insertionSort bytesLeR (grid_entries grid w h)
  have hsort := List.sorted_insertionSort bytesLeR (grid_entries grid w h)
  have hiff := hasAdjDup_iff _ hsort
  rw [hperm.nodup_iff] at hiff
  unfold grid_contains_duplicates
  by_cases hd : hasAdjDup (List.insertionSort bytesLeR (grid_entries grid w h)) = true
  · rw [if_pos hd]
    have hdup := hiff.mp hd
    exact ⟨⟨fun _ => hdup, fun _ => rfl⟩,
           ⟨fun h0 => absurd h0 (by decide), fun hnd => absurd hnd hdup⟩⟩
  · rw [if_neg hd]
    have hnodup : (grid_entries grid w h).Nodup := by
      by_contra hnd
      exact hd (hiff.mpr hnd)
    exact ⟨⟨fun h1 => absurd h1 (by decide), fun hnd => absurd hnodup hnd⟩,
           ⟨fun _ => hnodup, fun _ => rfl⟩⟩

/-- A decoded solution grid as the output callback sees it after
reconstructing the working grid from a cover. -/
structure GridT where
  cells : List Nat
  w : Nat
  h : Nat
deriving DecidableEq

/-- The duplicate test the callback applies to a decoded grid
(xword-fill.c line 775). -/
def dupB (g : GridT) : Bool := grid_contains_duplicates g.cells g.w g.h == 1

/-- The two C `static` counters of `print_crossword_result`
(xword-fill.c lines 706-707), threaded explicitly as state. -/
structure CBState where
  printed : Nat
  skipped : Nat
deriving DecidableEq

/-- The observable outcome of one callback invocation: the counter state
it leaves behind, the grid it printed (if any), and its return value. -/
structure CBRes where
  state : CBState
  out : Option GridT
  ret : Int
deriving DecidableEq

/-- The part of `print_crossword_result` after the every-nth gate
(xword-fill.c lines 774-804): duplicate-rejected covers return 0 and
print nothing; otherwise the grid is printed, `printed_so_far` bumped,
and the return value is -99 exactly when the printed count reaches
`NumSolutions`, else 1. -/
def cb_emit (rejectDup : Bool) (numSolutions : Int) (g : GridT) (s : CBState) : CBRes :=
  if rejectDup = true ∧ dupB g = true then ⟨s, none, 0⟩
  else
    ⟨⟨s.printed + 1, s.skipped⟩, some g,
      if ((s.printed + 1 : Nat) : Int) = numSolutions then -99 else 1⟩

/-- Embedding of `print_crossword_result` (xword-fill.c lines 698-804)
as a function of the decoded grid.  The reconstruction of the working
grid from dancing-links node handles (lines 724-772) uses the node type
of `dancing.h`, which is not part of the sources; the callback is
modelled from the point where the working grid has been rebuilt.  The
every-nth gate (lines 709-716) runs first: when `PrintEveryNthSolution`
is not 1, a cover increments `skipped_so_far` and is dropped (return 0)
until the counter reaches the threshold, which resets it and lets the
cover through to the duplicate filter and printer. -/
def cb_step (rejectDup : Bool) (numSolutions : Int) (everyNth : Nat) (g : GridT)
    (s : CBState) : CBRes :=
  if everyNth ≠ 1 then
    if s.skipped + 1 < everyNth then ⟨⟨s.printed, s.skipped + 1⟩, none, 0⟩
    else cb_emit rejectDup numSolutions g ⟨s.printed, 0⟩
  else cb_emit rejectDup numSolutions g s

/-- The callback loop of `dance_solve` over a stream of covers: each
cover is passed to the callback with the state the previous call left;
a negative return value aborts the search (the covers after it are
never seen).  Returns the final counter state and the printed grids in
order. -/
def runSeq (rejectDup : Bool) (numSolutions : Int) (everyNth : Nat) :
    CBState → List GridT → CBState × List GridT
  | s, [] => (s, [])
  | s, g :: gs =>
      let r := cb_step rejectDup numSolutions everyNth g s
      if r.ret < 0 then (r.state, r.out.toList)
      else
        let rest := runSeq rejectDup numSolutions everyNth r.state gs
        (rest.1, r.out.toList ++ rest.2)

/-- Modelled from the spec: take every K-th element of a list (the
elements at positions K, 2K, 3K, ... in 1-based counting), with `c`
elements of the current cycle already consumed. -/
def everyKthAux (k : Nat) : Nat → List GridT → List GridT
  | _, [] => []
  | c, g :: gs =>
      if c + 1 < k then everyKthAux k (c + 1) gs else g :: everyKthAux k 0 gs

/-- Taking every 1st element changes nothing. -/
lemma everyKthAux_one : ∀ (c : Nat) (l : List GridT), everyKthAux 1 c l = l
  | _, [] => rfl
  | c, g :: gs => by
      unfold everyKthAux
      rw [if_neg (by omega), everyKthAux_one 0 gs]

/-- With the default flags (`every_nth = 1`, no solution cap) the
callback loop prints exactly the duplicate-free covers, whatever counter
values it inherited. -/
lemma runSeq_printed_one (rd : Bool) :
    ∀ (gs : List GridT) (s : CBState),
      (runSeq rd (-1) 1 s gs).2 = gs.filter (fun g => !(rd && dupB g))
  | [], _ => rfl
  | g :: gs, s => by
      have hstep : cb_step rd (-1) 1 g s = cb_emit rd (-1) g s := by
        unfold cb_step
        rw [if_neg (fun hh => hh rfl)]
      have hih := runSeq_printed_one rd gs
      by_cases hdup : (rd && dupB g) = true
      · have hd1 : rd = true ∧ dupB g = true := by simpa using hdup
        have hemit : cb_emit rd (-1) g s = ⟨s, none, 0⟩ := by
          unfold cb_emit; rw [if_pos hd1]
        have hnor : ¬ (rd = false ∨ dupB g = false) := by
          rintro (hh | hh)
          · rw [hd1.1] at hh; exact absurd hh (by decide)
          · rw [hd1.2] at hh; exact absurd hh (by decide)
        simp [runSeq, hstep, hemit, hih s, List.filter_cons, hdup]
        rw [if_neg hnor]
      · have hd2 : ¬ (rd = true ∧ dupB g = true) := by simpa using hdup
        have hfalse : (rd && dupB g) = false := by simpa using hdup
        have hemit : cb_emit rd (-1) g s =
            ⟨⟨s.printed + 1, s.skipped⟩, some g, 1⟩ := by
          unfold cb_emit
          rw [if_neg hd2, if_neg (by omega : ¬ ((s.printed + 1 : Nat) : Int) = -1)]
        have hor : rd = false ∨ dupB g = false := by
          cases hrd : rd
          · exact Or.inl rfl
          · cases hdg : dupB g
            · exact Or.inr rfl
            · rw [hrd, hdg] at hfalse; exact absurd hfalse (by decide)
        simp [runSeq, hstep, hemit, hih, List.filter_cons, hfalse]
        rw [if_pos hor]

/-- With `every_nth = K` different from 1 (and no solution cap) the
callback loop dup-checks and prints exactly every K-th cover of the
whole stream: the skip counter advances on every cover, including ones
the duplicate filter would reject. -/
lemma runSeq_printed_K (rd : Bool) (K : Nat) (hK : K ≠ 1) :
    ∀ (gs : List GridT) (p c : Nat),
      (runSeq rd (-1) K ⟨p, c⟩ gs).2 =
        (everyKthAux K c gs).filter (fun g => !(rd && dupB g))
  | [], _, _ => rfl
  | g :: gs, p, c => by
      by_cases hsk : c + 1 < K
      · have hstep : cb_step rd (-1) K g ⟨p, c⟩ = ⟨⟨p, c + 1⟩, none, 0⟩ := by
          unfold cb_step
          rw [if_pos hK, if_pos hsk]
        have hih := runSeq_printed_K rd K hK gs p (c + 1)
        simp [runSeq, hstep, hih, everyKthAux, hsk]
      · have hstep : cb_step rd (-1) K g ⟨p, c⟩ = cb_emit rd (-1) g ⟨p, 0⟩ := by
          unfold cb_step
          rw [if_pos hK, if_neg hsk]
        by_cases hdup : (rd && dupB g) = true
        · have hd1 : rd = true ∧ dupB g = true := by simpa using hdup
          have hemit : cb_emit rd (-1) g ⟨p, 0⟩ = ⟨⟨p, 0⟩, none, 0⟩ := by
            unfold cb_emit; rw [if_pos hd1]
          have hih := runSeq_printed_K rd K hK gs p 0
          have hnor : ¬ (rd = false ∨ dupB g = false) := by
            rintro (hh | hh)
            · rw [hd1.1] at hh; exact absurd hh (by decide)
            · rw [hd1.2] at hh; exact absurd hh (by decide)
          simp [runSeq, hstep, hemit, hih, everyKthAux, hsk, List.filter_cons, hdup]
          rw [if_neg hnor]
        · have hd2 : ¬ (rd = true ∧ dupB g = true) := by simpa using hdup
          have hfalse : (rd && dupB g) = false := by simpa using hdup
          have hemit : cb_emit rd (-1) g ⟨p, 0⟩ = ⟨⟨p + 1, 0⟩, some g, 1⟩ := by
            unfold cb_emit
            rw [if_neg hd2, if_neg (by omega : ¬ ((p + 1 : Nat) : Int) = -1)]
          have hih := runSeq_printed_K rd K hK gs (p + 1) 0
          have hor : rd = false ∨ dupB g = false := by
            cases hrd : rd
            · exact Or.inl rfl
            · cases hdg : dupB g
              · exact Or.inr rfl
              · rw [hrd, hdg] at hfalse; exact absurd hfalse (by decide)
          simp [runSeq, hstep, hemit, hih, everyKthAux, hsk, List.filter_cons, hfalse]
          rw [if_pos hor]

/-- A 2-by-1 grid `aa`: its two single-cell Down runs coincide, so the
callback duplicate filter rejects it. -/
def gridAA : GridT := ⟨[97, 97], 2, 1⟩

/-- A 2-by-1 grid `ab`: all its runs are distinct, so the duplicate
filter accepts it. -/
def gridAB : GridT := ⟨[97, 98], 2, 1⟩

/-- Claim C6: with duplicate rejection on and the default every-nth of
1, the callback (a) returns 0 on a duplicate-containing decoded grid,
printing nothing and leaving the printed count unchanged, and (b) on a
clean grid prints it, bumps the printed count, and returns the bail-out
sentinel -99 exactly when the printed count reaches `NumSolutions`,
returning 1 otherwise. -/
theorem c6_callback (N : Int) (g : GridT) (s : CBState) :
    (dupB g = true → cb_step true N 1 g s = ⟨s, none, 0⟩) ∧
    (dupB g = false →
      (cb_step true N 1 g s).out = some g ∧
      (cb_step true N 1 g s).state.printed = s.printed + 1 ∧
      ((cb_step true N 1 g s).ret = -99 ↔ ((s.printed + 1 : Nat) : Int) = N) ∧
      ((cb_step true N 1 g s).ret = -99 ∨ (cb_step true N 1 g s).ret = 1)) := by
  have hstep : cb_step true N 1 g s = cb_emit true N g s := by
    unfold cb_step
    rw [if_neg (fun hh => hh rfl)]
  rw [hstep]
  unfold cb_emit
  constructor
  · intro hd
    rw [if_pos ⟨rfl, hd⟩]
  · intro hd
    rw [if_neg (fun hc => by rw [hd] at hc; exact absurd hc.2 (by decide))]
    by_cases hP : ((s.printed + 1 : Nat) : Int) = N
    · rw [if_pos hP]
      exact ⟨rfl, rfl, ⟨fun _ => hP, fun _ => rfl⟩, Or.inl rfl⟩
    · rw [if_neg hP]
      exact ⟨rfl, rfl, ⟨fun hc => absurd (show (1 : Int) = -99 from hc) (by decide),
              fun hN => absurd hN hP⟩, Or.inr rfl⟩

/-- Claim C6, witness: with `NumSolutions = 1`, the duplicate grid `aa`
is dropped with return 0 and no printing. -/
theorem c6_witness : cb_step true 1 1 gridAA ⟨0, 0⟩ = ⟨⟨0, 0⟩, none, 0⟩ :=
  (c6_callback 1 gridAA ⟨0, 0⟩).1 (by decide)

/-- Claim C7, counterexample: with `every_nth = 2` and duplicate
rejection on, feed the solver covers `aa` (duplicate) then `ab`
(clean).  The code prints `ab`: the duplicate cover advanced the
every-2nd cycle even though it was never acceptable.  The claim says
only every 2nd **acceptable** cover is printed, and the only acceptable
cover `ab` is at acceptable-position 1, so nothing should be printed.
The claim as stated is false. -/
theorem c7_counterexample :
    (runSeq true (-1) 2 ⟨0, 0⟩ [gridAA, gridAB]).2 = [gridAB] ∧
    everyKthAux 2 0 ([gridAA, gridAB].filter (fun g => !(dupB g))) = [] ∧
    ([gridAB] : List GridT) ≠ [] := by decide

/-- Claim C7, amended: with `every_nth = K` (and no solution cap), the
printed grids are exactly the duplicate-free ones among every K-th
cover of the **whole** cover stream: the every-K-th cycle counts every
cover, duplicate-rejected ones included, and a K-th cover that contains
duplicates is dropped without its slot being refilled. -/
theorem c7_amended (rd : Bool) (K : Nat) (covers : List GridT) :
    (runSeq rd (-1) K ⟨0, 0⟩ covers).2 =
      (everyKthAux K 0 covers).filter (fun g => !(rd && dupB g)) := by
  by_cases hK : K = 1
  · subst hK
    rw [runSeq_printed_one rd covers ⟨0, 0⟩, everyKthAux_one]
  · exact runSeq_printed_K rd K hK covers 0 0

/-- Claim C9, counterexample: the print/skip counters are C function
statics, i.e. process-wide state that survives across solver
invocations.  With `--every 2` and a single clean cover `ab`, a first
invocation from the fresh state (0,0) prints nothing and leaves the
skip counter at 1; a second invocation with identical grid, dictionary
order and flags, starting from that leftover state, prints `ab`.  Two
identical invocations in one process thus emit different solution
sequences, so the claim as stated is false. -/
theorem c9_counterexample :
    (runSeq false (-1) 2 ⟨0, 0⟩ [gridAB]).2 = [] ∧
    (runSeq false (-1) 2 (runSeq false (-1) 2 ⟨0, 0⟩ [gridAB]).1 [gridAB]).2 =
      [gridAB] ∧
    (runSeq false (-1) 2 ⟨0, 0⟩ [gridAB]).1 ≠ ⟨0, 0⟩ := by decide

/-- Claim C9, amended: the counters are process-wide statics rather than
per-call state, so equal output across invocations is only guaranteed
when the counters hold equal values at the start of each invocation; in
particular, under the **default** flags (`every_nth = 1`, no solution
cap) the printed sequence is independent of the inherited counters, so
repeated identical invocations agree, while with `every_nth` greater
than 1 or a solution cap an earlier invocation can change a later
the later output (see the counterexample). -/
theorem c9_amended (rd : Bool) (s s2 : CBState) (covers : List GridT) :
    (runSeq rd (-1) 1 s covers).2 = (runSeq rd (-1) 1 s2 covers).2 := by
  rw [runSeq_printed_one rd covers s, runSeq_printed_one rd covers s2]

/-- The Across start columns `strip_dict` scans: `i < w-k+1` with C int
arithmetic, so no positions at all when the word is longer than the
row. -/
def acrossStarts (w len : Nat) : List Nat :=
  if len ≤ w then List.range (w - len + 1) else []

/-- The Down start rows `strip_dict` scans: `j < h-k+1`. -/
def downStarts (h len : Nat) : List Nat :=
  if len ≤ h then List.range (h - len + 1) else []

/-- Whether some position gives fit result `v` for `word`, mirroring the
scan loops of `strip_dict` (xword-fill.c lines 863-880). -/
def existsFitB (grid : List Nat) (w h : Nat) (word : List Nat) (v : Nat) : Bool :=
  ((List.range h).any (fun j =>
      (acrossStarts w word.length).any (fun i =>
        entry_fits_across grid w h i j word == v))) ||
  ((downStarts h word.length).any (fun j =>
      (List.range w).any (fun i =>
        entry_fits_down grid w h i j word == v)))

/-- The keep/remove decision `strip_dict` makes for one word
(xword-fill.c lines 860-887): with duplicate rejection on, a word is
kept exactly when it fits exactly nowhere (otherwise it is already in
the grid and removed) and fits loosely somewhere; with rejection off, it
is kept exactly when it fits anywhere.  The C code decides this with
goto jumps over the same scans; the decision is scan-order
independent. -/
def keepWord (rejectDup : Bool) (grid : List Nat) (w h : Nat) (word : List Nat) :
    Bool :=
  if rejectDup then
    !existsFitB grid w h word 2 && existsFitB grid w h word 1
  else
    existsFitB grid w h word 1 || existsFitB grid w h word 2

/-- The removal step `dict->words[k][widx] = dict->words[k][--dict->len[k]]`
(xword-fill.c line 886): overwrite slot `widx` with the last element and
drop the last slot. -/
def swapRemove (l : List (List Nat)) (i : Nat) : List (List Nat) :=
  match l.getLast? with
  | none => l
  | some lastw => (l.set i lastw).dropLast

/-- The `widx` loop of `strip_dict` for one word-length class
(xword-fill.c lines 858-892), fuel-powered: after deciding word `widx`
the loop increment always moves to `widx + 1`, so an element just
swapped into slot `widx` by a removal is never examined.  `fuel` bounds
the iteration count; the initial list length suffices because `widx`
strictly increases and the list never grows. -/
def strip_loop (keep : List Nat → Bool) :
    Nat → List (List Nat) → Nat → List (List Nat)
  | 0, l, _ => l
  | fuel + 1, l, widx =>
      if hw : widx < l.length then
        if keep (l.get ⟨widx, hw⟩) then strip_loop keep fuel l (widx + 1)
        else strip_loop keep fuel (swapRemove l widx) (widx + 1)
      else l

/-- Embedding of `strip_dict` restricted to one word-length class. -/
def strip_dict_words (rejectDup : Bool) (grid : List Nat) (w h : Nat)
    (ws : List (List Nat)) : List (List Nat) :=
  strip_loop (keepWord rejectDup grid w h) ws.length ws 0

/-- Claim C8 (code bug): on the all-black 3-by-1 grid `###` (no word
fits anywhere) with the length-3 word list `[aaa, bbb]`, `strip_dict`
removes `aaa`, swaps `bbb` into its slot, and then advances to the next
index without ever examining `bbb`: the word `bbb` survives the purge
although it has no admissible placement (no position fits it loosely or
exactly), contradicting the claimed postcondition that every remaining
word has at least one admissible placement — and contradicting the
routine's own comment that it "strips out all the useless words". -/
theorem c8_strip_dict_bug :
    strip_dict_words true [35, 35, 35] 3 1 [[97, 97, 97], [98, 98, 98]] =
      [[98, 98, 98]] ∧
    existsFitB [35, 35, 35] 3 1 [98, 98, 98] 1 = false ∧
    existsFitB [35, 35, 35] 3 1 [98, 98, 98] 2 = false := by decide

/-- The compile-time word-length bound `MAX_WORDLEN` (xword-fill.c
line 20). -/
def MAX_WORDLEN : Nat := 15

/-- The index at which the skip loop `while (i < w && grid[j*w+i] != '#')`
of the forced-placement scan (xword-fill.c lines 435-436) stops: the
first index at or after `i` that is off the row end or black. -/
def skipToBlack (grid : List Nat) (w j i : Nat) : Nat :=
  i + ((List.range (w - i)).takeWhile
        (fun k => decide (gridGet grid (j*w+(i+k)) ≠ 35))).length

/-- The forced-placement Across scan of one row in naive mode
(xword-fill.c lines 422-441), fuel-powered (the loop index strictly
increases, so `w+2` iterations suffice).  Emits, in order, one pair
`(word_starts_here, i - word_starts_here)` per invocation of
`add_row_forced_across`; the second component is the length the caller
asserts to be at most `MAX_WORDLEN` (line 427). -/
def scanRowFuel (grid : List Nat) (w j : Nat) :
    Nat → Nat → Nat → List (Nat × Nat)
  | 0, _, _ => []
  | fuel + 1, i, wsh =>
      if w < i then []
      else if (i = w ∨ gridGet grid (j*w+i) = 35) ∧ wsh < i then
        (wsh, i - wsh) :: scanRowFuel grid w j fuel (i + 1) (i + 1)
      else if i = w then []
      else if ¬ isalpha (gridGet grid (j*w+i)) then
        scanRowFuel grid w j fuel (skipToBlack grid w j i + 1) (skipToBlack grid w j i + 1)
      else scanRowFuel grid w j fuel (i + 1) wsh

/-- All `add_row_forced_across` invocations the naive-mode scan makes
for row `j`, with the run length the call site asserted. -/
def forced_across_calls (grid : List Nat) (w j : Nat) : List (Nat × Nat) :=
  scanRowFuel grid w j (w + 2) 0 0

/-- The value the loop variable `k` of `add_row_forced_across`
(xword-fill.c lines 649-664) holds when its cell loop ends: the number
of cells from column `i` of row `j` up to the first black cell or the
right edge.  Line 665 then asserts `k < MAX_WORDLEN`. -/
def forced_across_len (grid : List Nat) (w i j : Nat) : Nat :=
  ((List.range (w - i)).takeWhile
      (fun k => decide (gridGet grid (j*w+(i+k)) ≠ 35))).length

/-- Claim C10 (code bug): the 1-by-15 all-letter grid `abcdefghijklmno`
is a valid input — its only fully-fixed maximal run has length 15,
which is exactly the word-length bound `MAX_WORDLEN` and is accepted by
the caller's own assertion `i - word_starts_here <= MAX_WORDLEN`
(xword-fill.c line 427).  The naive forced-placement scan invokes
`add_row_forced_across` exactly once, at column 0 with length 15; inside
that function the cell loop ends with `k = 15`, and the assertion
`k < MAX_WORDLEN` (line 665) is violated.  So naive-mode emission does
hit an internal assertion on a valid grid, refuting the claim that it
never does; the two assertions contradict each other, and the intent
(runs up to length 15 are legal) makes the callee's strict bound the
slip. -/
theorem c10_forced_assert_bug :
    forced_across_calls
        [97, 98, 99, 100, 101, 102, 103, 104, 105, 106, 107, 108, 109, 110, 111]
        15 0 = [(0, 15)] ∧
    15 ≤ MAX_WORDLEN ∧
    forced_across_len
        [97, 98, 99, 100, 101, 102, 103, 104, 105, 106, 107, 108, 109, 110, 111]
        15 0 0 = 15 ∧
    ¬ (forced_across_len
        [97, 98, 99, 100, 101, 102, 103, 104, 105, 106, 107, 108, 109, 110, 111]
        15 0 0 < MAX_WORDLEN) := by decide

/-- Embedding of `add_rows_for_word` (xword-fill.c lines 492-514): one
row per position where the fit result is exactly 1 (a loose fit; exact
fits, result 2, add no row), scanning positions row-major with Across
checked before Down. -/
def rows_for_word (grid : List Nat) (w h : Nat) (naive : Bool) (word : List Nat) :
    List (List Nat) :=
  (List.range h).flatMap (fun j =>
    (List.range w).flatMap (fun i =>
      (if entry_fits_across grid w h i j word = 1 then
         [add_row_across grid w naive i j word] else []) ++
      (if entry_fits_down grid w h i j word = 1 then
         [add_row_down grid w naive i j word] else [])))

/-- The placement rows the reduction emits for a dictionary streamed in
the given order (`xdict_find(dict, "*", add_rows_for_word, ...)`,
xword-fill.c line 406). -/
def rows_for_dict (grid : List Nat) (w h : Nat) (naive : Bool)
    (dict : List (List Nat)) : List (List Nat) :=
  dict.flatMap (rows_for_word grid w h naive)

/-- Modelled from the spec (glossary, "exact cover"): a set `S` of row
indices is an exact cover of a matrix with `ncols` columns when every
column below `ncols` occurs in exactly one chosen row. -/
def isExactCover (rows : List (List Nat)) (ncols : Nat) (S : List Nat) : Bool :=
  (List.range ncols).all (fun c =>
    S.countP (fun r => (rows.getD r []).contains c) == 1)

/-- Modelled from the spec: the number of exact covers of the matrix,
counting subsets of the row-index set. -/
def numCovers (rows : List (List Nat)) (ncols : Nat) : Nat :=
  ((List.range rows.length).sublists.filter
      (fun S => isExactCover rows ncols S)).length

/-- The single-row grid `b0g` of spec scenario 2. -/
def b0gGrid : List Nat := [98, 48, 103]

/-- The scenario-2 dictionary {bag, beg, big, bog, bug, byg, bfg}. -/
def b0gDict : List (List Nat) :=
  [[98, 97, 103], [98, 101, 103], [98, 105, 103], [98, 111, 103],
   [98, 117, 103], [98, 121, 103], [98, 102, 103]]

/-- Claim C1, counterexample: the exact-cover matrix the program builds
for the single-row grid `b0g` and the scenario-2 dictionary (compressed
mode, 54 columns for the single open cell) has **zero** exact covers,
not six: every emitted row is an Across row, so no row carries a 1 in
the Down orientation column 53 (or in the Down halves of the letter
pairs), and no selection of rows can cover those columns.  The claim as
stated is false: correspondingly the program prints no solution for
this grid. -/
theorem c1_counterexample :
    numCovers (rows_for_dict b0gGrid 3 1 false b0gDict)
        (27*2*NUMBER_OF_SLICES b0gGrid 3 1 false) = 0 ∧
    numCovers (rows_for_dict b0gGrid 3 1 false b0gDict)
        (27*2*NUMBER_OF_SLICES b0gGrid 3 1 false) ≠ 6 := by decide

/-- Claim C1, amended: streaming the scenario-2 dictionary past the
grid `b0g` emits exactly one Across row per vowel-completing word — for
bag, beg, big, bog, bug, byg in that order — and no row for `bfg` (the
`f` is not a vowel, so the fit test rejects it); but the resulting
matrix has no exact cover at all (no row covers the Down orientation
column), so no solution is emitted, rather than the six solutions the
scenario expects. -/
theorem c1_amended :
    rows_for_dict b0gGrid 3 1 false b0gDict =
      [[98, 97, 103], [98, 101, 103], [98, 105, 103], [98, 111, 103],
       [98, 117, 103], [98, 121, 103]].map
        (fun wd => add_row_across b0gGrid 3 false 0 0 wd) ∧
    rows_for_word b0gGrid 3 1 false [98, 102, 103] = [] ∧
    numCovers (rows_for_dict b0gGrid 3 1 false b0gDict)
        (27*2*NUMBER_OF_SLICES b0gGrid 3 1 false) = 0 := by decide

end Xword